import Mathlib

/-
Verification of the FHERockPaperScissors contract core
(FHERockPaperScissors.sol): a shallow embedding of its state machine
and of its homomorphic winner-evaluation circuit, with the spec's
testable properties settled as theorems.

Modelling conventions:
- addresses are Nat, with 0 playing the role of address(0);
- an encrypted value (euint32 / ebool handle) is modelled symbolically
  as a term of the inductive type Ct; the zero / uninitialized handle
  (euint32.wrap(0), ebool.wrap(0), default storage) is Ct.uninit, and a
  handle produced by FHE.fromExternal is Ct.ext i (real handles are
  never bit-identical to zero, so Ct.ext is a distinct constructor);
- each FHE primitive used by the contract (asEuint32, eq, and, or)
  builds the corresponding Ct node; plaintext semantics are given by
  evalCt under an environment mapping external-input ids to plaintexts;
- FHE.makePubliclyDecryptable returns its argument unchanged (as the
  contract relies on when it reassigns the field) and records the
  handle in the decl ledger; FHE.allowThis records it in the acl
  ledger; both ledgers live in the coprocessor, so they persist across
  a Game record replacement;
- a reverting call is Except.error; the caller's state is unchanged
  (applyCall keeps the pre-state on error), matching EVM revert;
- msg.sender is a nonzero address (no transaction originates from
  address(0)); reachability constrains call senders accordingly.
-/

deriving instance DecidableEq for Except

namespace FHERPS

/-- Symbolic ciphertext handles: the zero / uninitialized encoding, an
admitted external input, and the nodes built by the FHE primitives the
contract uses. -/
inductive Ct where
  | uninit : Ct
  | ext : Nat → Ct
  | const : Nat → Ct
  | eq : Ct → Ct → Ct
  | and : Ct → Ct → Ct
  | or : Ct → Ct → Ct
deriving DecidableEq

/-- Plaintext semantics of a ciphertext under an environment giving the
plaintext of each external input; booleans are encoded as 0 / 1. -/
def evalCt (env : Nat → Nat) : Ct → Nat
  | Ct.uninit => 0
  | Ct.ext i => env i
  | Ct.const v => v
  | Ct.eq a b => if evalCt env a = evalCt env b then 1 else 0
  | Ct.and a b => if evalCt env a ≠ 0 ∧ evalCt env b ≠ 0 then 1 else 0
  | Ct.or a b => if evalCt env a ≠ 0 ∨ evalCt env b ≠ 0 then 1 else 0

/-- enum GameStatus of the contract: Waiting = 0 is the first value, so
it is also the default-storage value before any game is started. -/
inductive GameStatus where
  | Waiting : GameStatus
  | InProgress : GameStatus
  | Completed : GameStatus
deriving DecidableEq

/-- struct Game of the contract. -/
structure Game where
  player1 : Nat
  player2 : Nat
  encryptedPlayer1Choice : Ct
  encryptedPlayer2Choice : Ct
  encryptedP1Wins : Ct
  encryptedIsTie : Ct
  winner : Nat
  status : GameStatus
deriving DecidableEq

/-- The contract state: the Game record plus the coprocessor ledgers of
handles made publicly decryptable and of allowThis grants. -/
structure CState where
  game : Game
  decl : List Ct
  acl : List Ct
deriving DecidableEq

/-- Default-initialized storage: zero addresses, zero handles, first
enum value, empty ledgers. -/
def initState : CState :=
  { game := { player1 := 0, player2 := 0,
              encryptedPlayer1Choice := Ct.uninit,
              encryptedPlayer2Choice := Ct.uninit,
              encryptedP1Wins := Ct.uninit,
              encryptedIsTie := Ct.uninit,
              winner := 0, status := GameStatus.Waiting },
    decl := [], acl := [] }

/-- The revert reasons of the contract, one per require. -/
inductive Err where
  | AlreadyStarted : Err
  | NotStarted : Err
  | AlreadyTwoPlayers : Err
  | SelfJoin : Err
  | NotWaiting : Err
  | NotAPlayer : Err
  | InvalidState : Err
  | P1AlreadySubmitted : Err
  | P2AlreadySubmitted : Err
deriving DecidableEq

/-- The events declared by the contract. -/
inductive Event where
  | GameStarted : Nat → Event
  | GameJoined : Nat → Event
  | EncryptedChoiceSubmitted : Nat → Event
  | GameCompleted : Nat → Event
deriving DecidableEq

/-- ebool isTie = FHE.eq(p1Choice, p2Choice). -/
def tieCt (c1 c2 : Ct) : Ct := Ct.eq c1 c2

/-- ebool p1Wins = FHE.or(FHE.or(p1WinsRock, p1WinsPaper), p1WinsScissors)
with p1WinsRock = and(eq(p1, rock), eq(p2, scissors)) etc., where rock,
paper, scissors are FHE.asEuint32 of 0, 1, 2. -/
def p1WinsCt (c1 c2 : Ct) : Ct :=
  Ct.or
    (Ct.or
      (Ct.and (Ct.eq c1 (Ct.const 0)) (Ct.eq c2 (Ct.const 2)))
      (Ct.and (Ct.eq c1 (Ct.const 1)) (Ct.eq c2 (Ct.const 0))))
    (Ct.and (Ct.eq c1 (Ct.const 2)) (Ct.eq c2 (Ct.const 1)))

/-- function _computeWinnerFHE: stores the tie and p1Wins circuits over
the two stored choices, marks exactly those two results publicly
decryptable, grants the contract access to them, and flips the status
to Completed. It emits no event. -/
def computeWinnerFHE (s : CState) : CState :=
  let p1Choice := s.game.encryptedPlayer1Choice
  let p2Choice := s.game.encryptedPlayer2Choice
  let isTie := tieCt p1Choice p2Choice
  let p1Wins := p1WinsCt p1Choice p2Choice
  { game := { s.game with
      encryptedIsTie := isTie,
      encryptedP1Wins := p1Wins,
      status := GameStatus.Completed },
    decl := s.decl ++ [p1Wins, isTie],
    acl := s.acl ++ [p1Wins, isTie] }

/-- function startGame: require(game.player1 == address(0)), then
replace the whole Game record and emit GameStarted. -/
def startGame (sender : Nat) (s : CState) : Except Err (CState × List Event) :=
  if s.game.player1 ≠ 0 then Except.error Err.AlreadyStarted
  else
    Except.ok
      ({ game := { player1 := sender, player2 := 0,
                   encryptedPlayer1Choice := Ct.uninit,
                   encryptedPlayer2Choice := Ct.uninit,
                   encryptedP1Wins := Ct.uninit,
                   encryptedIsTie := Ct.uninit,
                   winner := 0, status := GameStatus.Waiting },
         decl := s.decl, acl := s.acl },
       [Event.GameStarted sender])

/-- function joinGame: the four requires in source order, then set
player2, set status InProgress and emit GameJoined. -/
def joinGame (sender : Nat) (s : CState) : Except Err (CState × List Event) :=
  if s.game.player1 = 0 then Except.error Err.NotStarted
  else if s.game.player2 ≠ 0 then Except.error Err.AlreadyTwoPlayers
  else if s.game.player1 = sender then Except.error Err.SelfJoin
  else if s.game.status ≠ GameStatus.Waiting then Except.error Err.NotWaiting
  else
    let g := { s.game with player2 := sender, status := GameStatus.InProgress }
    Except.ok ({ s with game := g }, [Event.GameJoined sender])

/-- Tail of submitEncryptedChoice after the chosen slot was written:
emit EncryptedChoiceSubmitted, and if both slots are now set and the
status is InProgress, run _computeWinnerFHE. -/
def finishSubmit (sender : Nat) (s : CState) : Except Err (CState × List Event) :=
  if s.game.encryptedPlayer1Choice ≠ Ct.uninit ∧
      s.game.encryptedPlayer2Choice ≠ Ct.uninit ∧
      s.game.status = GameStatus.InProgress then
    Except.ok (computeWinnerFHE s, [Event.EncryptedChoiceSubmitted sender])
  else Except.ok (s, [Event.EncryptedChoiceSubmitted sender])

/-- function submitEncryptedChoice: the three requires, then
FHE.fromExternal (modelled as Ct.ext input), then the per-seat sentinel
check and store with an allowThis grant, then finishSubmit. -/
def submitEncryptedChoice (sender : Nat) (input : Nat) (s : CState) :
    Except Err (CState × List Event) :=
  if s.game.player1 = 0 then Except.error Err.NotStarted
  else if sender ≠ s.game.player1 ∧ sender ≠ s.game.player2 then
    Except.error Err.NotAPlayer
  else if s.game.status ≠ GameStatus.Waiting ∧ s.game.status ≠ GameStatus.InProgress then
    Except.error Err.InvalidState
  else
    let c := Ct.ext input
    if sender = s.game.player1 then
      if s.game.encryptedPlayer1Choice ≠ Ct.uninit then
        Except.error Err.P1AlreadySubmitted
      else
        let g := { s.game with encryptedPlayer1Choice := c }
        finishSubmit sender { s with game := g, acl := s.acl ++ [c] }
    else
      if s.game.encryptedPlayer2Choice ≠ Ct.uninit then
        Except.error Err.P2AlreadySubmitted
      else
        let g := { s.game with encryptedPlayer2Choice := c }
        finishSubmit sender { s with game := g, acl := s.acl ++ [c] }

/-- function getGame: the six returned components, in source order. -/
def getGame (s : CState) : Nat × Nat × Ct × Ct × Nat × GameStatus :=
  (s.game.player1, s.game.player2, s.game.encryptedP1Wins,
    s.game.encryptedIsTie, s.game.winner, s.game.status)

/-- The external calls of the contract. -/
inductive Call where
  | start : Nat → Call
  | join : Nat → Call
  | submit : Nat → Nat → Call
deriving DecidableEq

/-- The sender of a call. -/
def Call.sender : Call → Nat
  | Call.start a => a
  | Call.join a => a
  | Call.submit a _ => a

/-- Dispatch a call to the contract. -/
def exec : Call → CState → Except Err (CState × List Event)
  | Call.start a, s => startGame a s
  | Call.join a, s => joinGame a s
  | Call.submit a i, s => submitEncryptedChoice a i s

/-- The state after a call: the new state on success, the unchanged
pre-state on revert. -/
def applyCall (c : Call) (s : CState) : CState :=
  match exec c s with
  | Except.ok r => r.1
  | Except.error _ => s

/-- The events of a call: emitted events on success, none on revert. -/
def evsOf (c : Call) (s : CState) : List Event :=
  match exec c s with
  | Except.ok r => r.2
  | Except.error _ => []

/-- Run a sequence of calls from a state. -/
def runCalls : List Call → CState → CState
  | [], s => s
  | c :: cs, s => runCalls cs (applyCall c s)

/-- The states reachable from default-initialized storage by calls from
nonzero senders (no EVM transaction originates from address(0)). -/
inductive Reachable : CState → Prop where
  | init : Reachable initState
  | step (c : Call) (s : CState) : Reachable s → c.sender ≠ 0 →
      Reachable (applyCall c s)

/-- Modelled from the spec: the spec's four-valued status
{Empty, Waiting, InProgress, Completed}; the code has no Empty value,
the no-game situation being represented by player1 = address(0). -/
inductive SpecStatus where
  | Empty : SpecStatus
  | Waiting : SpecStatus
  | InProgress : SpecStatus
  | Completed : SpecStatus
deriving DecidableEq

/-- The spec-level status of a contract state: Empty when no game
exists (player1 is the zero address), the stored tag otherwise. -/
def specStatus (s : CState) : SpecStatus :=
  if s.game.player1 = 0 then SpecStatus.Empty
  else
    match s.game.status with
    | GameStatus.Waiting => SpecStatus.Waiting
    | GameStatus.InProgress => SpecStatus.InProgress
    | GameStatus.Completed => SpecStatus.Completed

/-- One returned component of getGame, tagged by its kind. -/
inductive Comp where
  | addr : Nat → Comp
  | enc : Ct → Comp
  | stat : GameStatus → Comp
deriving DecidableEq

/-- The components getGame actually returns, flattened in order. -/
def getGameComponents (s : CState) : List Comp :=
  [Comp.addr (getGame s).1, Comp.addr (getGame s).2.1,
    Comp.enc (getGame s).2.2.1, Comp.enc (getGame s).2.2.2.1,
    Comp.addr (getGame s).2.2.2.2.1, Comp.stat (getGame s).2.2.2.2.2]

/-- Modelled from the spec: the query surface the spec describes -- a
single read returning exactly the five components (player1, player2,
encryptedAWins, encryptedTie, status). -/
def getGameComponentsSpec (s : CState) : List Comp :=
  [Comp.addr s.game.player1, Comp.addr s.game.player2,
    Comp.enc s.game.encryptedP1Wins, Comp.enc s.game.encryptedIsTie,
    Comp.stat s.game.status]

/-- True of the zero / uninitialized handle and of admitted external
inputs: the only shapes a choice slot ever holds. -/
def slotShaped : Ct → Bool
  | Ct.uninit => true
  | Ct.ext _ => true
  | _ => false

/-- The inductive invariant of the reachable states. -/
def Inv (s : CState) : Prop :=
  s.game.winner = 0 ∧
  (s.game.player1 = 0 →
    s.game.player2 = 0 ∧
    s.game.encryptedPlayer1Choice = Ct.uninit ∧
    s.game.encryptedPlayer2Choice = Ct.uninit ∧
    s.game.status = GameStatus.Waiting ∧ s.decl = []) ∧
  (s.game.player2 ≠ 0 → s.game.player1 ≠ 0 ∧ s.game.player2 ≠ s.game.player1) ∧
  (s.game.status = GameStatus.Waiting →
    s.game.player2 = 0 ∧ s.game.encryptedPlayer2Choice = Ct.uninit ∧ s.decl = []) ∧
  (s.game.status = GameStatus.InProgress →
    s.game.player1 ≠ 0 ∧ s.game.player2 ≠ 0 ∧
    ¬(s.game.encryptedPlayer1Choice ≠ Ct.uninit ∧
        s.game.encryptedPlayer2Choice ≠ Ct.uninit) ∧
    s.decl = []) ∧
  (s.game.status = GameStatus.Completed →
    s.game.player1 ≠ 0 ∧ s.game.player2 ≠ 0 ∧
    s.game.encryptedPlayer1Choice ≠ Ct.uninit ∧
    s.game.encryptedPlayer2Choice ≠ Ct.uninit ∧
    s.game.encryptedP1Wins =
      p1WinsCt s.game.encryptedPlayer1Choice s.game.encryptedPlayer2Choice ∧
    s.game.encryptedIsTie =
      tieCt s.game.encryptedPlayer1Choice s.game.encryptedPlayer2Choice ∧
    s.decl =
      [p1WinsCt s.game.encryptedPlayer1Choice s.game.encryptedPlayer2Choice,
        tieCt s.game.encryptedPlayer1Choice s.game.encryptedPlayer2Choice]) ∧
  slotShaped s.game.encryptedPlayer1Choice = true ∧
  slotShaped s.game.encryptedPlayer2Choice = true

end FHERPS
namespace FHERPS

theorem inv_init : Inv initState := by
  refine ⟨rfl, fun _ => ⟨rfl, rfl, rfl, rfl, rfl⟩, ?_, fun _ => ⟨rfl, rfl, rfl⟩, ?_, ?_, rfl, rfl⟩
  · intro hcon; exact absurd rfl hcon
  · intro hcon; exact absurd hcon (by decide)
  · intro hcon; exact absurd hcon (by decide)

theorem inv_start (a : Nat) (s : CState) (h : Inv s) (ha : a ≠ 0) :
    Inv (applyCall (Call.start a) s) := by
  obtain ⟨hw, h0, hp2, hW, hI, hC, hsh1, hsh2⟩ := h
  by_cases hp : s.game.player1 = 0
  · obtain ⟨e2, e3, e4, e5, e6⟩ := h0 hp
    simp only [applyCall, exec, startGame, hp, ne_eq, not_true_eq_false, if_false,
      ite_false, reduceIte]
    refine ⟨rfl, ?_, ?_, ?_, ?_, ?_, rfl, rfl⟩
    · intro hcon; exact absurd hcon ha
    · intro hcon; simp at hcon
    · exact fun _ => ⟨rfl, rfl, e6⟩
    · intro hcon; simp at hcon
    · intro hcon; simp at hcon
  · have heq : applyCall (Call.start a) s = s := by
      simp only [applyCall, exec, startGame, if_pos hp]
    rw [heq]
    exact ⟨hw, h0, hp2, hW, hI, hC, hsh1, hsh2⟩

end FHERPS
namespace FHERPS

theorem inv_join (a : Nat) (s : CState) (h : Inv s) (ha : a ≠ 0) :
    Inv (applyCall (Call.join a) s) := by
  obtain ⟨hw, h0, hp2, hW, hI, hC, hsh1, hsh2⟩ := h
  by_cases h1 : s.game.player1 = 0
  · have heq : applyCall (Call.join a) s = s := by
      simp only [applyCall, exec, joinGame, if_pos h1]
    rw [heq]; exact ⟨hw, h0, hp2, hW, hI, hC, hsh1, hsh2⟩
  by_cases h2 : s.game.player2 ≠ 0
  · have heq : applyCall (Call.join a) s = s := by
      simp only [applyCall, exec, joinGame, if_neg h1, if_pos h2]
    rw [heq]; exact ⟨hw, h0, hp2, hW, hI, hC, hsh1, hsh2⟩
  by_cases h3 : s.game.player1 = a
  · have heq : applyCall (Call.join a) s = s := by
      simp only [applyCall, exec, joinGame, if_neg h1, if_neg h2, if_pos h3]
    rw [heq]; exact ⟨hw, h0, hp2, hW, hI, hC, hsh1, hsh2⟩
  by_cases h4 : s.game.status ≠ GameStatus.Waiting
  · have heq : applyCall (Call.join a) s = s := by
      simp only [applyCall, exec, joinGame, if_neg h1, if_neg h2, if_neg h3, if_pos h4]
    rw [heq]; exact ⟨hw, h0, hp2, hW, hI, hC, hsh1, hsh2⟩
  push_neg at h4
  obtain ⟨e4a, e4b, e4c⟩ := hW h4
  have heq : applyCall (Call.join a) s =
      { s with game := { s.game with player2 := a, status := GameStatus.InProgress } } := by
    simp only [applyCall, exec, joinGame, if_neg h1, if_neg h2, if_neg h3]
    simp only [h4, ne_eq, not_true_eq_false, if_false, ite_false, reduceIte]
  rw [heq]
  refine ⟨hw, ?_, ?_, ?_, ?_, ?_, hsh1, hsh2⟩
  · intro hcon; exact absurd hcon h1
  · intro _; exact ⟨h1, fun hcon => h3 hcon.symm⟩
  · intro hcon; simp at hcon
  · intro _
    refine ⟨h1, ha, ?_, e4c⟩
    intro hcon
    exact hcon.2 e4b
  · intro hcon; simp at hcon

end FHERPS
namespace FHERPS

theorem finishSubmit_eq (a : Nat) (s : CState) :
    finishSubmit a s =
      Except.ok
        (if s.game.encryptedPlayer1Choice ≠ Ct.uninit ∧ s.game.encryptedPlayer2Choice ≠ Ct.uninit ∧
            s.game.status = GameStatus.InProgress then computeWinnerFHE s else s,
         [Event.EncryptedChoiceSubmitted a]) := by
  by_cases hc : s.game.encryptedPlayer1Choice ≠ Ct.uninit ∧ s.game.encryptedPlayer2Choice ≠ Ct.uninit ∧
      s.game.status = GameStatus.InProgress
  · simp only [finishSubmit, if_pos hc]
  · simp only [finishSubmit, if_neg hc]

theorem inv_computeWinnerFHE (s : CState) (hw : s.game.winner = 0)
    (h1 : s.game.player1 ≠ 0) (h2 : s.game.player2 ≠ 0)
    (hne : s.game.player2 ≠ s.game.player1)
    (hc1 : s.game.encryptedPlayer1Choice ≠ Ct.uninit)
    (hc2 : s.game.encryptedPlayer2Choice ≠ Ct.uninit)
    (hd : s.decl = [])
    (hsh1 : slotShaped s.game.encryptedPlayer1Choice = true)
    (hsh2 : slotShaped s.game.encryptedPlayer2Choice = true) :
    Inv (computeWinnerFHE s) := by
  refine ⟨hw, fun hcon => absurd hcon h1, fun _ => ⟨h1, hne⟩, ?_, ?_, ?_, hsh1, hsh2⟩
  · intro hcon; exact absurd hcon (by simp [computeWinnerFHE])
  · intro hcon; exact absurd hcon (by simp [computeWinnerFHE])
  · intro _
    refine ⟨h1, h2, hc1, hc2, rfl, rfl, ?_⟩
    simp [computeWinnerFHE, hd]

theorem inv_store1 (i : Nat) (s : CState) (h : Inv s)
    (h1 : s.game.player1 ≠ 0)
    (hni : s.game.status = GameStatus.InProgress → s.game.encryptedPlayer2Choice = Ct.uninit)
    (hnc : s.game.status ≠ GameStatus.Completed) :
    Inv { s with game := { s.game with encryptedPlayer1Choice := Ct.ext i }, acl := s.acl ++ [Ct.ext i] } := by
  obtain ⟨hw, h0, hp2, hW, hI, hC, hsh1, hsh2⟩ := h
  refine ⟨hw, fun hcon => absurd hcon h1, hp2, ?_, ?_,
    fun hcon => absurd hcon hnc, rfl, hsh2⟩
  · intro hst; exact hW hst
  · intro hst
    obtain ⟨i1, i2, _, i4⟩ := hI hst
    exact ⟨i1, i2, fun hcon => hcon.2 (hni hst), i4⟩

theorem inv_store2 (i : Nat) (s : CState) (h : Inv s)
    (h1 : s.game.player1 ≠ 0)
    (hni : s.game.status = GameStatus.InProgress → s.game.encryptedPlayer1Choice = Ct.uninit)
    (hnw : s.game.status ≠ GameStatus.Waiting)
    (hnc : s.game.status ≠ GameStatus.Completed) :
    Inv { s with game := { s.game with encryptedPlayer2Choice := Ct.ext i }, acl := s.acl ++ [Ct.ext i] } := by
  obtain ⟨hw, h0, hp2, hW, hI, hC, hsh1, hsh2⟩ := h
  refine ⟨hw, fun hcon => absurd hcon h1, hp2, fun hcon => absurd hcon hnw, ?_,
    fun hcon => absurd hcon hnc, hsh1, rfl⟩
  intro hst
  obtain ⟨i1, i2, _, i4⟩ := hI hst
  exact ⟨i1, i2, fun hcon => hcon.1 (hni hst), i4⟩

theorem inv_submit (a i : Nat) (s : CState) (h : Inv s) (ha : a ≠ 0) :
    Inv (applyCall (Call.submit a i) s) := by
  obtain ⟨hw, h0, hp2, hW, hI, hC, hsh1, hsh2⟩ := h
  by_cases h1 : s.game.player1 = 0
  · have heq : applyCall (Call.submit a i) s = s := by
      simp only [applyCall, exec, submitEncryptedChoice, if_pos h1]
    rw [heq]; exact ⟨hw, h0, hp2, hW, hI, hC, hsh1, hsh2⟩
  by_cases h2 : a ≠ s.game.player1 ∧ a ≠ s.game.player2
  · have heq : applyCall (Call.submit a i) s = s := by
      simp only [applyCall, exec, submitEncryptedChoice, if_neg h1, if_pos h2]
    rw [heq]; exact ⟨hw, h0, hp2, hW, hI, hC, hsh1, hsh2⟩
  by_cases h3 : s.game.status ≠ GameStatus.Waiting ∧ s.game.status ≠ GameStatus.InProgress
  · have heq : applyCall (Call.submit a i) s = s := by
      simp only [applyCall, exec, submitEncryptedChoice, if_neg h1, if_neg h2, if_pos h3]
    rw [heq]; exact ⟨hw, h0, hp2, hW, hI, hC, hsh1, hsh2⟩
  push_neg at h3
  have hne3 : ¬(s.game.status ≠ GameStatus.Waiting ∧ s.game.status ≠ GameStatus.InProgress) :=
    fun hcon => hcon.2 (h3 hcon.1)
  have hnc : s.game.status ≠ GameStatus.Completed := by
    intro hcon
    have hipc := h3 (by rw [hcon]; exact fun hh => GameStatus.noConfusion hh)
    rw [hcon] at hipc
    exact GameStatus.noConfusion hipc
  by_cases h4 : a = s.game.player1
  · by_cases h5 : s.game.encryptedPlayer1Choice ≠ Ct.uninit
    · have heq : applyCall (Call.submit a i) s = s := by
        simp only [applyCall, exec, submitEncryptedChoice, if_neg h1, if_neg h2,
          if_neg hne3, if_pos h4, if_pos h5]
      rw [heq]; exact ⟨hw, h0, hp2, hW, hI, hC, hsh1, hsh2⟩
    push_neg at h5
    simp only [applyCall, exec, submitEncryptedChoice, if_neg h1, if_neg h2, if_neg hne3,
      if_pos h4, if_neg (not_not_intro h5)]
    rw [finishSubmit_eq]
    show Inv (if _ then _ else _)
    split
    next hcnd =>
      have hip : s.game.status = GameStatus.InProgress := hcnd.2.2
      obtain ⟨i1, i2, _, i4⟩ := hI hip
      exact inv_computeWinnerFHE _ hw h1 i2 (hp2 i2).2
        (fun hcc => Ct.noConfusion hcc) hcnd.2.1 i4 rfl hsh2
    next hcnd =>
      refine inv_store1 i s ⟨hw, h0, hp2, hW, hI, hC, hsh1, hsh2⟩ h1 ?_ hnc
      intro hst
      by_contra hc2
      exact hcnd ⟨fun hcc => Ct.noConfusion hcc, hc2, hst⟩
  · have hap2 : a = s.game.player2 := by
      by_contra hcon
      exact h2 ⟨h4, hcon⟩
    have hp2ne0 : s.game.player2 ≠ 0 := fun hcon => ha (by rw [hap2, hcon])
    have hnw : s.game.status ≠ GameStatus.Waiting := by
      intro hst
      exact hp2ne0 (hW hst).1
    have hip : s.game.status = GameStatus.InProgress := h3 hnw
    by_cases h5 : s.game.encryptedPlayer2Choice ≠ Ct.uninit
    · have heq : applyCall (Call.submit a i) s = s := by
        simp only [applyCall, exec, submitEncryptedChoice, if_neg h1, if_neg h2,
          if_neg hne3, if_neg h4, if_pos h5]
      rw [heq]; exact ⟨hw, h0, hp2, hW, hI, hC, hsh1, hsh2⟩
    push_neg at h5
    simp only [applyCall, exec, submitEncryptedChoice, if_neg h1, if_neg h2, if_neg hne3,
      if_neg h4, if_neg (not_not_intro h5)]
    rw [finishSubmit_eq]
    show Inv (if _ then _ else _)
    split
    next hcnd =>
      obtain ⟨i1, i2, _, i4⟩ := hI hip
      exact inv_computeWinnerFHE _ hw h1 hp2ne0 (hp2 hp2ne0).2
        hcnd.1 (fun hcc => Ct.noConfusion hcc) i4 hsh1 rfl
    next hcnd =>
      refine inv_store2 i s ⟨hw, h0, hp2, hW, hI, hC, hsh1, hsh2⟩ h1 ?_ hnw hnc
      intro hst
      by_contra hc1
      exact hcnd ⟨hc1, fun hcc => Ct.noConfusion hcc, hst⟩

theorem inv_reachable (s : CState) (h : Reachable s) : Inv s := by
  induction h with
  | init => exact inv_init
  | step c s hr hs ih =>
    cases c with
    | start a => exact inv_start a s ih hs
    | join a => exact inv_join a s ih hs
    | submit a i => exact inv_submit a i s ih hs

end FHERPS
namespace FHERPS

theorem slots_preserved (c : Call) (s : CState) (h : Inv s) :
    ((applyCall c s).game.encryptedPlayer1Choice = s.game.encryptedPlayer1Choice ∨
      s.game.encryptedPlayer1Choice = Ct.uninit) ∧
    ((applyCall c s).game.encryptedPlayer2Choice = s.game.encryptedPlayer2Choice ∨
      s.game.encryptedPlayer2Choice = Ct.uninit) := by
  obtain ⟨hw, h0, hp2, hW, hI, hC, hsh1, hsh2⟩ := h
  cases c with
  | start a =>
    by_cases hp : s.game.player1 = 0
    · exact ⟨Or.inr (h0 hp).2.1, Or.inr (h0 hp).2.2.1⟩
    · have heq : applyCall (Call.start a) s = s := by
        simp only [applyCall, exec, startGame, if_pos hp]
      rw [heq]; exact ⟨Or.inl rfl, Or.inl rfl⟩
  | join a =>
    by_cases h1 : s.game.player1 = 0
    · have heq : applyCall (Call.join a) s = s := by
        simp only [applyCall, exec, joinGame, if_pos h1]
      rw [heq]; exact ⟨Or.inl rfl, Or.inl rfl⟩
    by_cases h2 : s.game.player2 ≠ 0
    · have heq : applyCall (Call.join a) s = s := by
        simp only [applyCall, exec, joinGame, if_neg h1, if_pos h2]
      rw [heq]; exact ⟨Or.inl rfl, Or.inl rfl⟩
    by_cases h3 : s.game.player1 = a
    · have heq : applyCall (Call.join a) s = s := by
        simp only [applyCall, exec, joinGame, if_neg h1, if_neg h2, if_pos h3]
      rw [heq]; exact ⟨Or.inl rfl, Or.inl rfl⟩
    by_cases h4 : s.game.status ≠ GameStatus.Waiting
    · have heq : applyCall (Call.join a) s = s := by
        simp only [applyCall, exec, joinGame, if_neg h1, if_neg h2, if_neg h3, if_pos h4]
      rw [heq]; exact ⟨Or.inl rfl, Or.inl rfl⟩
    · have heq : applyCall (Call.join a) s =
          { s with game := { s.game with player2 := a, status := GameStatus.InProgress } } := by
        simp only [applyCall, exec, joinGame, if_neg h1, if_neg h2, if_neg h3, if_neg h4]
      rw [heq]; exact ⟨Or.inl rfl, Or.inl rfl⟩
  | submit a i =>
    by_cases h1 : s.game.player1 = 0
    · have heq : applyCall (Call.submit a i) s = s := by
        simp only [applyCall, exec, submitEncryptedChoice, if_pos h1]
      rw [heq]; exact ⟨Or.inl rfl, Or.inl rfl⟩
    by_cases h2 : a ≠ s.game.player1 ∧ a ≠ s.game.player2
    · have heq : applyCall (Call.submit a i) s = s := by
        simp only [applyCall, exec, submitEncryptedChoice, if_neg h1, if_pos h2]
      rw [heq]; exact ⟨Or.inl rfl, Or.inl rfl⟩
    by_cases h3 : s.game.status ≠ GameStatus.Waiting ∧ s.game.status ≠ GameStatus.InProgress
    · have heq : applyCall (Call.submit a i) s = s := by
        simp only [applyCall, exec, submitEncryptedChoice, if_neg h1, if_neg h2, if_pos h3]
      rw [heq]; exact ⟨Or.inl rfl, Or.inl rfl⟩
    by_cases h4 : a = s.game.player1
    · by_cases h5 : s.game.encryptedPlayer1Choice ≠ Ct.uninit
      · have heq : applyCall (Call.submit a i) s = s := by
          simp only [applyCall, exec, submitEncryptedChoice, if_neg h1, if_neg h2, if_neg h3,
            if_pos h4, if_pos h5]
        rw [heq]; exact ⟨Or.inl rfl, Or.inl rfl⟩
      · push_neg at h5
        refine ⟨Or.inr h5, ?_⟩
        simp only [applyCall, exec, submitEncryptedChoice, if_neg h1, if_neg h2, if_neg h3,
          if_pos h4, if_neg (not_not_intro h5)]
        rw [finishSubmit_eq]
        show ((if _ then _ else _ : CState)).game.encryptedPlayer2Choice =
          s.game.encryptedPlayer2Choice ∨ s.game.encryptedPlayer2Choice = Ct.uninit
        split
        · exact Or.inl rfl
        · exact Or.inl rfl
    · by_cases h5 : s.game.encryptedPlayer2Choice ≠ Ct.uninit
      · have heq : applyCall (Call.submit a i) s = s := by
          simp only [applyCall, exec, submitEncryptedChoice, if_neg h1, if_neg h2, if_neg h3,
            if_neg h4, if_pos h5]
        rw [heq]; exact ⟨Or.inl rfl, Or.inl rfl⟩
      · push_neg at h5
        refine ⟨?_, Or.inr h5⟩
        simp only [applyCall, exec, submitEncryptedChoice, if_neg h1, if_neg h2, if_neg h3,
          if_neg h4, if_neg (not_not_intro h5)]
        rw [finishSubmit_eq]
        show ((if _ then _ else _ : CState)).game.encryptedPlayer1Choice =
          s.game.encryptedPlayer1Choice ∨ s.game.encryptedPlayer1Choice = Ct.uninit
        split
        · exact Or.inl rfl
        · exact Or.inl rfl

end FHERPS
namespace FHERPS

/-- C3: in every reachable state, the status is Completed exactly when
both choice slots are set (not the uninitialized sentinel); in
particular the status is never Completed with exactly one slot set, and
the submit call that sets the second slot flips the status to Completed
within that same call. -/
theorem completed_iff_both_set (s : CState) (h : Reachable s) :
    (s.game.status = GameStatus.Completed ↔
      (s.game.encryptedPlayer1Choice ≠ Ct.uninit ∧
        s.game.encryptedPlayer2Choice ≠ Ct.uninit)) := by
  obtain ⟨hw, h0, hp2, hW, hI, hC, hsh1, hsh2⟩ := inv_reachable s h
  constructor
  · intro hc
    obtain ⟨_, _, c1, c2, _⟩ := hC hc
    exact ⟨c1, c2⟩
  · intro hboth
    cases hst : s.game.status with
    | Waiting => exact absurd (hW hst).2.1 hboth.2
    | InProgress => exact absurd hboth (hI hst).2.2.1
    | Completed => rfl

/-- Witness for C3 at the concrete completed run start(1), join(2),
submit(1, input 10), submit(2, input 20). -/
theorem completed_iff_both_set_witness :
    ((runCalls [Call.start 1, Call.join 2, Call.submit 1 10, Call.submit 2 20]
        initState).game.status = GameStatus.Completed ↔
      ((runCalls [Call.start 1, Call.join 2, Call.submit 1 10, Call.submit 2 20]
          initState).game.encryptedPlayer1Choice ≠ Ct.uninit ∧
        (runCalls [Call.start 1, Call.join 2, Call.submit 1 10, Call.submit 2 20]
          initState).game.encryptedPlayer2Choice ≠ Ct.uninit)) :=
  completed_iff_both_set _
    (Reachable.step (Call.submit 2 20) _
      (Reachable.step (Call.submit 1 10) _
        (Reachable.step (Call.join 2) _
          (Reachable.step (Call.start 1) _ Reachable.init (by decide))
          (by decide))
        (by decide))
      (by decide))

/-- C6: in every reachable state whose spec-level status (Empty when no
game exists, i.e. player1 is the zero address) is Waiting or
InProgress, startGame reverts with the already-started error and leaves
the state unchanged. -/
theorem no_start_while_live (a : Nat) (s : CState) (h : Reachable s)
    (hst : specStatus s = SpecStatus.Waiting ∨ specStatus s = SpecStatus.InProgress) :
    startGame a s = Except.error Err.AlreadyStarted ∧ applyCall (Call.start a) s = s := by
  have h1 : s.game.player1 ≠ 0 := by
    intro hp
    rcases hst with hst | hst <;>
      (rw [specStatus, if_pos hp] at hst; exact SpecStatus.noConfusion hst)
  have he : startGame a s = Except.error Err.AlreadyStarted := by
    simp only [startGame, if_pos h1]
  exact ⟨he, by simp only [applyCall, exec, he]⟩

/-- Witness for C6 at the concrete waiting state reached by start(1). -/
theorem no_start_while_live_witness :
    startGame 2 (runCalls [Call.start 1] initState) = Except.error Err.AlreadyStarted ∧
      applyCall (Call.start 2) (runCalls [Call.start 1] initState) =
        runCalls [Call.start 1] initState :=
  no_start_while_live 2 _
    (Reachable.step (Call.start 1) _ Reachable.init (by decide))
    (Or.inl (by decide))

/-- C2 (failing input for the claim): after a completed game the claim
and the spec say startGame succeeds and replaces the game, but the code
tests only player1 == address(0), which is never reset, so startGame
reverts with the already-started error forever. -/
theorem start_after_completed_reverts :
    (runCalls [Call.start 1, Call.join 2, Call.submit 1 10, Call.submit 2 20]
        initState).game.status = GameStatus.Completed ∧
    startGame 3 (runCalls [Call.start 1, Call.join 2, Call.submit 1 10, Call.submit 2 20]
        initState) = Except.error Err.AlreadyStarted ∧
    applyCall (Call.start 3)
        (runCalls [Call.start 1, Call.join 2, Call.submit 1 10, Call.submit 2 20] initState) =
      runCalls [Call.start 1, Call.join 2, Call.submit 1 10, Call.submit 2 20] initState := by
  decide

/-- C9 (failing input for the claim): the submit call that completes the
game emits only the choice-submitted event; no game-completed event is
ever emitted (the event is declared in the contract but never emitted). -/
theorem no_game_completed_event :
    (applyCall (Call.submit 2 20)
        (runCalls [Call.start 1, Call.join 2, Call.submit 1 10] initState)).game.status =
      GameStatus.Completed ∧
    evsOf (Call.submit 2 20) (runCalls [Call.start 1, Call.join 2, Call.submit 1 10] initState) =
      [Event.EncryptedChoiceSubmitted 2] ∧
    (evsOf (Call.submit 2 20)
        (runCalls [Call.start 1, Call.join 2, Call.submit 1 10] initState)).all
      (fun e => match e with | Event.GameCompleted _ => false | _ => true) = true := by
  decide

/-- C8 (counterexample): the claim says the read returns exactly five
components, but getGame returns six -- the five plus the stored winner
address. -/
theorem getGame_not_five_components :
    getGameComponents initState ≠ getGameComponentsSpec initState := by decide

/-- C8 (amended): getGame returns, in every reachable state and
independently of the caller, exactly six components -- player1, player2,
the two encrypted result booleans, the stored winner address, and the
status -- and the winner component is never computed: it is always the
zero address. -/
theorem getGame_components (s : CState) (h : Reachable s) :
    getGameComponents s =
      [Comp.addr s.game.player1, Comp.addr s.game.player2,
        Comp.enc s.game.encryptedP1Wins, Comp.enc s.game.encryptedIsTie,
        Comp.addr 0, Comp.stat s.game.status] := by
  have hw := (inv_reachable s h).1
  simp [getGameComponents, getGame, hw]

/-- Witness for C8's amended theorem at the initial state. -/
theorem getGame_components_witness :
    getGameComponents initState =
      [Comp.addr initState.game.player1, Comp.addr initState.game.player2,
        Comp.enc initState.game.encryptedP1Wins, Comp.enc initState.game.encryptedIsTie,
        Comp.addr 0, Comp.stat initState.game.status] :=
  getGame_components initState Reachable.init

end FHERPS
namespace FHERPS

/-- C5 (counterexample): in the reachable state start(1), join(2) the
caller 1 equals player1, yet a further join from 1 fails with the
seat-taken error (the player2-occupied check precedes the self-join
check), not with SelfJoin as the claim states. -/
theorem join_self_seat_taken_counterexample :
    (runCalls [Call.start 1, Call.join 2] initState).game.player1 = 1 ∧
    joinGame 1 (runCalls [Call.start 1, Call.join 2] initState) =
      Except.error Err.AlreadyTwoPlayers ∧
    joinGame 1 (runCalls [Call.start 1, Call.join 2] initState) ≠
      Except.error Err.SelfJoin := by
  decide

/-- C5 (amended): join succeeds -- setting player2 to the caller and the
status to InProgress -- exactly when a game exists in status Waiting
with player2 unset and the caller differs from player1; it fails with
the no-game error when player1 is unset, with the seat-taken error when
player2 is already set (this check precedes the self-join check), with
SelfJoin when player2 is unset and the caller equals player1, and with
the not-waiting error when the remaining status check fails; every
failure leaves the state unchanged. -/
theorem join_characterization (a : Nat) (s : CState) :
    (s.game.player1 = 0 → joinGame a s = Except.error Err.NotStarted) ∧
    (s.game.player1 ≠ 0 → s.game.player2 ≠ 0 →
      joinGame a s = Except.error Err.AlreadyTwoPlayers) ∧
    (s.game.player1 ≠ 0 → s.game.player2 = 0 → s.game.player1 = a →
      joinGame a s = Except.error Err.SelfJoin) ∧
    (s.game.player1 ≠ 0 → s.game.player2 = 0 → s.game.player1 ≠ a →
      s.game.status ≠ GameStatus.Waiting → joinGame a s = Except.error Err.NotWaiting) ∧
    (s.game.player1 ≠ 0 → s.game.player2 = 0 → s.game.player1 ≠ a →
      s.game.status = GameStatus.Waiting →
      joinGame a s =
        Except.ok ({ s with game := { s.game with player2 := a, status := GameStatus.InProgress } }, [Event.GameJoined a])) ∧
    ((∃ e, joinGame a s = Except.error e) → applyCall (Call.join a) s = s) := by
  refine ⟨?_, ?_, ?_, ?_, ?_, ?_⟩
  · intro h1; simp only [joinGame, if_pos h1]
  · intro h1 h2; simp only [joinGame, if_neg h1, if_pos h2]
  · intro h1 h2 h3
    simp only [joinGame, if_neg h1, if_neg (not_not_intro h2), if_pos h3]
  · intro h1 h2 h3 h4
    simp only [joinGame, if_neg h1, if_neg (not_not_intro h2), if_neg h3, if_pos h4]
  · intro h1 h2 h3 h4
    simp only [joinGame, if_neg h1, if_neg (not_not_intro h2), if_neg h3,
      if_neg (not_not_intro h4)]
  · intro ⟨e, he⟩
    simp only [applyCall, exec, he]

/-- Witness for C5's amended theorem: self-join rejected at the concrete
state start(1), and a join by 2 succeeding there. -/
theorem join_characterization_witness :
    joinGame 1 (runCalls [Call.start 1] initState) = Except.error Err.SelfJoin ∧
    joinGame 2 (runCalls [Call.start 1] initState) =
      Except.ok ({ runCalls [Call.start 1] initState with game := { (runCalls [Call.start 1] initState).game with player2 := 2, status := GameStatus.InProgress } }, [Event.GameJoined 2]) :=
  ⟨(join_characterization 1 (runCalls [Call.start 1] initState)).2.2.1 (by decide) (by decide)
      (by decide),
    (join_characterization 2 (runCalls [Call.start 1] initState)).2.2.2.2.1 (by decide)
      (by decide) (by decide) (by decide)⟩

end FHERPS
namespace FHERPS

theorem shape_ext (c : Ct) (hs : slotShaped c = true) (hne : c ≠ Ct.uninit) :
    ∃ i, c = Ct.ext i := by
  cases c with
  | uninit => exact absurd rfl hne
  | ext i => exact ⟨i, rfl⟩
  | const v => simp [slotShaped] at hs
  | eq x y => simp [slotShaped] at hs
  | and x y => simp [slotShaped] at hs
  | or x y => simp [slotShaped] at hs

/-- C7: in every reachable state, nothing is marked publicly
decryptable before the game completes; at completion the publicly
decryptable ledger holds exactly the two aggregate result booleans (the
p1Wins disjunction and the tie equality over the two stored external
choices), each exactly once; no ledger entry is a raw external choice,
a per-shape conjunction, or one of the two stored choices. -/
theorem declassified_only_results (s : CState) (h : Reachable s) :
    (s.game.status ≠ GameStatus.Completed → s.decl = []) ∧
    (s.game.status = GameStatus.Completed →
      ∃ i j, s.game.encryptedPlayer1Choice = Ct.ext i ∧
        s.game.encryptedPlayer2Choice = Ct.ext j ∧
        s.decl = [p1WinsCt (Ct.ext i) (Ct.ext j), tieCt (Ct.ext i) (Ct.ext j)]) ∧
    (∀ c ∈ s.decl, (∀ k, c ≠ Ct.ext k) ∧ (∀ x y, c ≠ Ct.and x y) ∧
      c ≠ s.game.encryptedPlayer1Choice ∧ c ≠ s.game.encryptedPlayer2Choice) ∧
    s.decl.Nodup := by
  obtain ⟨hw, h0, hp2, hW, hI, hC, hsh1, hsh2⟩ := inv_reachable s h
  have hnotc : s.game.status ≠ GameStatus.Completed → s.decl = [] := by
    intro hnc
    cases hst : s.game.status with
    | Waiting => exact (hW hst).2.2
    | InProgress => exact (hI hst).2.2.2
    | Completed => exact absurd hst hnc
  by_cases hcomp : s.game.status = GameStatus.Completed
  · obtain ⟨_, _, hc1, hc2, _, _, hdecl⟩ := hC hcomp
    obtain ⟨i, hi⟩ := shape_ext _ hsh1 hc1
    obtain ⟨j, hj⟩ := shape_ext _ hsh2 hc2
    rw [hi, hj] at hdecl
    refine ⟨fun hcon => absurd hcomp hcon, fun _ => ⟨i, j, hi, hj, hdecl⟩, ?_, ?_⟩
    · intro c hc
      rw [hdecl] at hc
      simp only [List.mem_cons, List.not_mem_nil, or_false] at hc
      rw [hi, hj]
      rcases hc with hc | hc <;> subst hc
      · exact ⟨fun k => by simp [p1WinsCt], fun x y => by simp [p1WinsCt],
          by simp [p1WinsCt], by simp [p1WinsCt]⟩
      · exact ⟨fun k => by simp [tieCt], fun x y => by simp [tieCt],
          by simp [tieCt], by simp [tieCt]⟩
    · rw [hdecl]
      simp [p1WinsCt, tieCt]
  · have hdecl := hnotc hcomp
    refine ⟨fun _ => hdecl, fun hcon => absurd hcon hcomp, ?_, ?_⟩
    · intro c hc
      rw [hdecl] at hc
      exact absurd hc (List.not_mem_nil c)
    · rw [hdecl]; exact List.nodup_nil

/-- Witness for C7 at the concrete completed run start(1), join(2),
submit(1, input 10), submit(2, input 20). -/
theorem declassified_only_results_witness :
    ((runCalls [Call.start 1, Call.join 2, Call.submit 1 10, Call.submit 2 20]
        initState).game.status ≠ GameStatus.Completed →
      (runCalls [Call.start 1, Call.join 2, Call.submit 1 10, Call.submit 2 20]
        initState).decl = []) ∧
    ((runCalls [Call.start 1, Call.join 2, Call.submit 1 10, Call.submit 2 20]
        initState).game.status = GameStatus.Completed →
      ∃ i j, (runCalls [Call.start 1, Call.join 2, Call.submit 1 10, Call.submit 2 20]
          initState).game.encryptedPlayer1Choice = Ct.ext i ∧
        (runCalls [Call.start 1, Call.join 2, Call.submit 1 10, Call.submit 2 20]
          initState).game.encryptedPlayer2Choice = Ct.ext j ∧
        (runCalls [Call.start 1, Call.join 2, Call.submit 1 10, Call.submit 2 20]
          initState).decl = [p1WinsCt (Ct.ext i) (Ct.ext j), tieCt (Ct.ext i) (Ct.ext j)]) ∧
    (∀ c ∈ (runCalls [Call.start 1, Call.join 2, Call.submit 1 10, Call.submit 2 20]
        initState).decl, (∀ k, c ≠ Ct.ext k) ∧ (∀ x y, c ≠ Ct.and x y) ∧
      c ≠ (runCalls [Call.start 1, Call.join 2, Call.submit 1 10, Call.submit 2 20]
        initState).game.encryptedPlayer1Choice ∧
      c ≠ (runCalls [Call.start 1, Call.join 2, Call.submit 1 10, Call.submit 2 20]
        initState).game.encryptedPlayer2Choice) ∧
    (runCalls [Call.start 1, Call.join 2, Call.submit 1 10, Call.submit 2 20]
        initState).decl.Nodup :=
  declassified_only_results _
    (Reachable.step (Call.submit 2 20) _
      (Reachable.step (Call.submit 1 10) _
        (Reachable.step (Call.join 2) _
          (Reachable.step (Call.start 1) _ Reachable.init (by decide))
          (by decide))
        (by decide))
      (by decide))

end FHERPS
namespace FHERPS

/-- C4 (counterexample): after the game completes, a further submit
from seat 1, whose slot is set, fails with the state-check error, not
with the duplicate-submission error as the claim states. -/
theorem second_submit_after_completed_not_duplicate :
    (runCalls [Call.start 1, Call.join 2, Call.submit 1 10, Call.submit 2 20]
        initState).game.encryptedPlayer1Choice ≠ Ct.uninit ∧
    submitEncryptedChoice 1 30 (runCalls [Call.start 1, Call.join 2, Call.submit 1 10,
        Call.submit 2 20] initState) = Except.error Err.InvalidState ∧
    submitEncryptedChoice 1 30 (runCalls [Call.start 1, Call.join 2, Call.submit 1 10,
        Call.submit 2 20] initState) ≠ Except.error Err.P1AlreadySubmitted := by
  decide

/-- C4 (amended): in every reachable state, a submit from a seat whose
slot is already set (not bit-identical to the uninitialized encoding)
always fails and leaves that slot unchanged -- with the
duplicate-submission error of that seat while the game is not yet
Completed, and with the state-check error once it is Completed --
and, more generally, a set slot is never changed by any later call, so
each slot transitions unset to set at most once. -/
theorem slot_single_writer (s : CState) (a i : Nat) (h : Reachable s) (ha : a ≠ 0) :
    (a = s.game.player1 → s.game.encryptedPlayer1Choice ≠ Ct.uninit →
      (s.game.status ≠ GameStatus.Completed →
        submitEncryptedChoice a i s = Except.error Err.P1AlreadySubmitted) ∧
      (s.game.status = GameStatus.Completed →
        submitEncryptedChoice a i s = Except.error Err.InvalidState) ∧
      (applyCall (Call.submit a i) s).game.encryptedPlayer1Choice =
        s.game.encryptedPlayer1Choice) ∧
    (a = s.game.player2 → s.game.encryptedPlayer2Choice ≠ Ct.uninit →
      (s.game.status ≠ GameStatus.Completed →
        submitEncryptedChoice a i s = Except.error Err.P2AlreadySubmitted) ∧
      (s.game.status = GameStatus.Completed →
        submitEncryptedChoice a i s = Except.error Err.InvalidState) ∧
      (applyCall (Call.submit a i) s).game.encryptedPlayer2Choice =
        s.game.encryptedPlayer2Choice) ∧
    (∀ c : Call, s.game.encryptedPlayer1Choice ≠ Ct.uninit →
      (applyCall c s).game.encryptedPlayer1Choice = s.game.encryptedPlayer1Choice) ∧
    (∀ c : Call, s.game.encryptedPlayer2Choice ≠ Ct.uninit →
      (applyCall c s).game.encryptedPlayer2Choice = s.game.encryptedPlayer2Choice) := by
  obtain ⟨hw, h0, hp2, hW, hI, hC, hsh1, hsh2⟩ := inv_reachable s h
  refine ⟨?_, ?_, ?_, ?_⟩
  · intro hseat hset
    have h1 : s.game.player1 ≠ 0 := fun hz => hset ((h0 hz).2.1)
    have h2 : ¬(a ≠ s.game.player1 ∧ a ≠ s.game.player2) := fun hcon => hcon.1 hseat
    refine ⟨?_, ?_, ?_⟩
    · intro hnc
      have hne3 : ¬(s.game.status ≠ GameStatus.Waiting ∧
          s.game.status ≠ GameStatus.InProgress) := by
        intro hcon
        cases hst : s.game.status with
        | Waiting => exact hcon.1 hst
        | InProgress => exact hcon.2 hst
        | Completed => exact hnc hst
      simp only [submitEncryptedChoice, if_neg h1, if_neg h2, if_neg hne3,
        if_pos hseat, if_pos hset]
    · intro hcomp
      have hpos3 : s.game.status ≠ GameStatus.Waiting ∧
          s.game.status ≠ GameStatus.InProgress := by
        constructor <;> (intro hcon; rw [hcomp] at hcon; exact GameStatus.noConfusion hcon)
      simp only [submitEncryptedChoice, if_neg h1, if_neg h2, if_pos hpos3]
    · rcases (slots_preserved (Call.submit a i) s
          ⟨hw, h0, hp2, hW, hI, hC, hsh1, hsh2⟩).1 with he | he
      · exact he
      · exact absurd he hset
  · intro hseat hset
    have hp2ne0 : s.game.player2 ≠ 0 := fun hz => ha (hseat.trans hz)
    have h1 : s.game.player1 ≠ 0 := (hp2 hp2ne0).1
    have h2 : ¬(a ≠ s.game.player1 ∧ a ≠ s.game.player2) := fun hcon => hcon.2 hseat
    have h4 : ¬(a = s.game.player1) := by
      intro hcon
      exact (hp2 hp2ne0).2 (by rw [← hseat, hcon])
    refine ⟨?_, ?_, ?_⟩
    · intro hnc
      have hne3 : ¬(s.game.status ≠ GameStatus.Waiting ∧
          s.game.status ≠ GameStatus.InProgress) := by
        intro hcon
        cases hst : s.game.status with
        | Waiting => exact hcon.1 hst
        | InProgress => exact hcon.2 hst
        | Completed => exact hnc hst
      simp only [submitEncryptedChoice, if_neg h1, if_neg h2, if_neg hne3,
        if_neg h4, if_pos hset]
    · intro hcomp
      have hpos3 : s.game.status ≠ GameStatus.Waiting ∧
          s.game.status ≠ GameStatus.InProgress := by
        constructor <;> (intro hcon; rw [hcomp] at hcon; exact GameStatus.noConfusion hcon)
      simp only [submitEncryptedChoice, if_neg h1, if_neg h2, if_pos hpos3]
    · rcases (slots_preserved (Call.submit a i) s
          ⟨hw, h0, hp2, hW, hI, hC, hsh1, hsh2⟩).2 with he | he
      · exact he
      · exact absurd he hset
  · intro c hset
    rcases (slots_preserved c s ⟨hw, h0, hp2, hW, hI, hC, hsh1, hsh2⟩).1 with he | he
    · exact he
    · exact absurd he hset
  · intro c hset
    rcases (slots_preserved c s ⟨hw, h0, hp2, hW, hI, hC, hsh1, hsh2⟩).2 with he | he
    · exact he
    · exact absurd he hset

/-- Witness for C4's amended theorem: a duplicate submit from seat 1
while the game is in progress fails with the duplicate-submission
error. -/
theorem slot_single_writer_witness :
    submitEncryptedChoice 1 30
        (runCalls [Call.start 1, Call.join 2, Call.submit 1 10] initState) =
      Except.error Err.P1AlreadySubmitted :=
  ((slot_single_writer (runCalls [Call.start 1, Call.join 2, Call.submit 1 10] initState)
      1 30
      (Reachable.step (Call.submit 1 10) _
        (Reachable.step (Call.join 2) _
          (Reachable.step (Call.start 1) _ Reachable.init (by decide))
          (by decide))
        (by decide))
      (by decide)).1 (by decide) (by decide)).1 (by decide)

end FHERPS
namespace FHERPS

/-- C10: the contract status enum has no Empty value -- its only values
are Waiting, InProgress and Completed; in default-initialized storage
the status field holds Waiting (the first enum value) while player1 is
the zero address; join and submit report the not-started failure
exactly when player1 is the zero address, independent of the status
tag; and startGame succeeds exactly when player1 is the zero address. -/
theorem status_no_empty :
    (∀ st : GameStatus, st = GameStatus.Waiting ∨ st = GameStatus.InProgress ∨
      st = GameStatus.Completed) ∧
    initState.game.status = GameStatus.Waiting ∧ initState.game.player1 = 0 ∧
    (∀ (a : Nat) (s : CState), s.game.player1 = 0 →
      joinGame a s = Except.error Err.NotStarted) ∧
    (∀ (a : Nat) (s : CState), s.game.player1 ≠ 0 →
      joinGame a s ≠ Except.error Err.NotStarted) ∧
    (∀ (a i : Nat) (s : CState), s.game.player1 = 0 →
      submitEncryptedChoice a i s = Except.error Err.NotStarted) ∧
    (∀ (a i : Nat) (s : CState), s.game.player1 ≠ 0 →
      submitEncryptedChoice a i s ≠ Except.error Err.NotStarted) ∧
    (∀ (a : Nat) (s : CState), (∃ r, startGame a s = Except.ok r) ↔ s.game.player1 = 0) := by
  refine ⟨?_, rfl, rfl, ?_, ?_, ?_, ?_, ?_⟩
  · intro st
    cases st
    · exact Or.inl rfl
    · exact Or.inr (Or.inl rfl)
    · exact Or.inr (Or.inr rfl)
  · intro a s h1; simp only [joinGame, if_pos h1]
  · intro a s h1
    simp only [joinGame, if_neg h1]
    split_ifs <;> simp
  · intro a i s h1; simp only [submitEncryptedChoice, if_pos h1]
  · intro a i s h1
    simp only [submitEncryptedChoice, if_neg h1]
    split_ifs <;> (try rw [finishSubmit_eq]) <;> simp
  · intro a s
    constructor
    · rintro ⟨r, hr⟩
      by_cases hp : s.game.player1 = 0
      · exact hp
      · rw [startGame, if_pos hp] at hr
        exact Except.noConfusion hr
    · intro hp
      exact ⟨_, if_neg (not_not_intro hp)⟩

/-- Witness for C10 at the initial state. -/
theorem status_no_empty_witness :
    joinGame 5 initState = Except.error Err.NotStarted ∧
    submitEncryptedChoice 5 9 initState = Except.error Err.NotStarted ∧
    (∃ r, startGame 7 initState = Except.ok r) :=
  ⟨status_no_empty.2.2.2.1 5 initState rfl,
    status_no_empty.2.2.2.2.2.1 5 9 initState rfl,
    (status_no_empty.2.2.2.2.2.2.2 7 initState).mpr rfl⟩

/-- C1: the winner evaluation, run on any state whose two stored
ciphertexts have plaintexts a and b in the domain 0..2
(Rock, Paper, Scissors), stores a tie boolean that is true exactly when
a = b and an aWins boolean that is true exactly for the three pairs
(Rock, Scissors), (Paper, Rock), (Scissors, Paper); the two are never
simultaneously true, so for each of the nine pairs exactly one of aWins,
tie, or neither holds. -/
theorem winner_eval_correct (env : Nat → Nat) (s : CState) (a b : Nat)
    (ha : a < 3) (hb : b < 3)
    (h1 : evalCt env s.game.encryptedPlayer1Choice = a)
    (h2 : evalCt env s.game.encryptedPlayer2Choice = b) :
    (evalCt env (computeWinnerFHE s).game.encryptedIsTie ≠ 0 ↔ a = b) ∧
    (evalCt env (computeWinnerFHE s).game.encryptedP1Wins ≠ 0 ↔
      ((a = 0 ∧ b = 2) ∨ (a = 1 ∧ b = 0) ∨ (a = 2 ∧ b = 1))) ∧
    ¬(evalCt env (computeWinnerFHE s).game.encryptedP1Wins ≠ 0 ∧
      evalCt env (computeWinnerFHE s).game.encryptedIsTie ≠ 0) := by
  have e1 : (computeWinnerFHE s).game.encryptedIsTie =
      tieCt s.game.encryptedPlayer1Choice s.game.encryptedPlayer2Choice := rfl
  have e2 : (computeWinnerFHE s).game.encryptedP1Wins =
      p1WinsCt s.game.encryptedPlayer1Choice s.game.encryptedPlayer2Choice := rfl
  rw [e1, e2]
  simp only [tieCt, p1WinsCt, evalCt, h1, h2]
  interval_cases a <;> interval_cases b <;> decide

/-- Witness for C1 at the concrete completed run with plaintexts
a = Rock, b = Scissors: aWins evaluates true and tie evaluates false. -/
theorem winner_eval_correct_witness :
    evalCt (fun i => if i = 10 then 0 else 2)
        (computeWinnerFHE (runCalls [Call.start 1, Call.join 2, Call.submit 1 10,
          Call.submit 2 20] initState)).game.encryptedP1Wins ≠ 0 ∧
    evalCt (fun i => if i = 10 then 0 else 2)
        (computeWinnerFHE (runCalls [Call.start 1, Call.join 2, Call.submit 1 10,
          Call.submit 2 20] initState)).game.encryptedIsTie = 0 := by
  have h := winner_eval_correct (fun i => if i = 10 then 0 else 2)
    (runCalls [Call.start 1, Call.join 2, Call.submit 1 10, Call.submit 2 20] initState)
    0 2 (by decide) (by decide) (by decide) (by decide)
  refine ⟨h.2.1.mpr (Or.inl ⟨rfl, rfl⟩), ?_⟩
  by_contra hcon
  exact absurd (h.1.mp hcon) (by decide)

end FHERPS
